import Mathlib

/-!
Shallow embedding of the job lifecycle and coordination layer of the
`synmax-bperkins` repository.

The embedded code:
* `src/app/lib/db.ts` — `createJob`, `updateJob`, `getJob`, `deleteJob`,
  `scanJobs` over a Redis / Vercel-KV key-value store.  Both backend
  variants in the file implement the same record-level semantics
  (read, merge via object spread, write); the store is modelled as an
  association list from jobId to record, with set/del/get mirroring
  SET / DEL / GET on the `job:<id>` keys.
* `src/app/api/process/route.ts` — the submit / dispatch / apply flow.
* the cleanup cron route (Redis variant, full cursor loop) — the sweeper.
* the results route (`src/unnamed/part_008`) — the result aggregator.

Timestamps: `Date.now()/1000` is passed explicitly as `now : Int`
(epoch seconds) and `new Date().toISOString()` as `iso : String`.
Store-level TTL (`EXPIRE` / the `ex` option) models passive backend
expiry and is not part of any record-level claim; the `expiresAt`
*field* arithmetic is embedded exactly.
-/

namespace JobSys

/-- Free-form string maps (`Record<string, string>`-like bags). -/
abbrev Meta := List (String × String)

/-- The `JobData` interface of `src/app/lib/db.ts` (fields in source order;
optional TS fields become `Option`). -/
structure JobData where
  jobId : String
  status : String
  createdAt : String
  updatedAt : String
  expiresAt : Option Int
  error : Option String
  resultsUrl : Option String
  visualizations : Option Meta
  metadata : Option Meta
deriving Repr, DecidableEq

/-- The key-value backing store: jobId ↦ record. -/
abbrev Store := List (String × JobData)

/-- Redis `GET job:<k>` (first binding wins, as in a real key-value store). -/
def kvGet (k : String) : Store → Option JobData
  | [] => none
  | (k', v) :: t => if k' = k then some v else kvGet k t

/-- Redis `DEL job:<k>` (the key is gone afterwards). -/
def kvDel (k : String) : Store → Store
  | [] => []
  | (k', v) :: t => if k' = k then kvDel k t else (k', v) :: kvDel k t

/-- Redis `SET job:<k> v` (the key now maps to `v`; kept canonical by dropping
shadowed entries). -/
def kvSet (k : String) (v : JobData) (s : Store) : Store :=
  (k, v) :: kvDel k s

/-- One week in seconds: `60 * 60 * 24 * 7`. -/
def weekSeconds : Int := 604800

/-- Thirty days in seconds: `60 * 60 * 24 * 30`. -/
def graceSeconds : Int := 2592000

/-- The `Partial<JobData>` type — the `data` argument of `updateJob`.  A `some`
field overrides the corresponding record field via the object spread
`{ ...job, status, updatedAt, ...data }`; an absent (`none`) field keeps
the stored value. -/
structure JobPatch where
  jobId : Option String := none
  status : Option String := none
  createdAt : Option String := none
  updatedAt : Option String := none
  expiresAt : Option Int := none
  error : Option String := none
  resultsUrl : Option String := none
  visualizations : Option Meta := none
  metadata : Option Meta := none
deriving Repr, DecidableEq

/-- The trailing `...data` spread of `updateJob`. -/
def applyPatch (job : JobData) : Option JobPatch → JobData
  | none => job
  | some p =>
    { jobId := p.jobId.getD job.jobId
      status := p.status.getD job.status
      createdAt := p.createdAt.getD job.createdAt
      updatedAt := p.updatedAt.getD job.updatedAt
      expiresAt := match p.expiresAt with
        | none => job.expiresAt
        | some e => some e
      error := match p.error with
        | none => job.error
        | some e => some e
      resultsUrl := match p.resultsUrl with
        | none => job.resultsUrl
        | some u => some u
      visualizations := match p.visualizations with
        | none => job.visualizations
        | some v => some v
      metadata := match p.metadata with
        | none => job.metadata
        | some m => some m }

/-- The record computed by `updateJob`:
`{ ...job, status, updatedAt: new Date().toISOString(), ...data }`. -/
def mergeJob (iso : String) (job : JobData) (status : String)
    (data : Option JobPatch) : JobData :=
  applyPatch { job with status := status, updatedAt := iso } data

/-- Function `createJob(jobId, metadata)` of `src/app/lib/db.ts`: unconditionally
`SET`s a fresh record with `status = PENDING` and
`expiresAt = Math.floor(Date.now()/1000) + 60*60*24*7`. -/
def createJob (now : Int) (iso : String) (jobId : String)
    (metadata : Option Meta) (store : Store) : JobData × Store :=
  let jobData : JobData :=
    { jobId := jobId
      status := "PENDING"
      createdAt := iso
      updatedAt := iso
      expiresAt := some (now + weekSeconds)
      error := none
      resultsUrl := none
      visualizations := none
      metadata := metadata }
  (jobData, kvSet jobId jobData store)

/-- Function `getJob(jobId)` of `src/app/lib/db.ts` — a pure read. -/
def getJob (jobId : String) (store : Store) : Option JobData :=
  kvGet jobId store

/-- The read phase of `updateJob` (`const job = await getJob(jobId)`),
which completes before the write is issued. -/
def updateJobRead (jobId : String) (store : Store) : Option JobData :=
  getJob jobId store

/-- The write phase of `updateJob`: merge the (possibly stale) record the
read phase produced with the new status and patch, and `SET` the result
unconditionally. -/
def updateJobWriteBack (iso : String) (jobId : String) (status : String)
    (data : Option JobPatch) (job : JobData) (store : Store) :
    Option JobData × Store :=
  let updatedJob := mergeJob iso job status data
  (some updatedJob, kvSet jobId updatedJob store)

/-- Function `updateJob(jobId, status, data)` of `src/app/lib/db.ts`: a read
followed by an unconditional write of the merged record; `null` when the
record is absent.  (The recomputed store-level TTL affects only passive
backend expiry, not the record.) -/
def updateJob (iso : String) (jobId : String) (status : String)
    (data : Option JobPatch) (store : Store) : Option JobData × Store :=
  match updateJobRead jobId store with
  | none => (none, store)
  | some job => updateJobWriteBack iso jobId status data job store

/-- Function `deleteJob(jobId)` of `src/app/lib/db.ts`: `DEL`, reporting whether a
record was removed. -/
def deleteJob (jobId : String) (store : Store) : Bool × Store :=
  ((kvGet jobId store).isSome, kvDel jobId store)

/-- Function `scanJobs('job:*')` of `src/app/lib/db.ts` (Redis variant, cursor loop
run to completion): every key of the store — all keys are job keys. -/
def scanJobs (store : Store) : List String :=
  store.map Prod.fst

/-- The per-key selection loop of the cleanup cron route: for each scanned
key, `redis.get` inside `try { ... } catch { log }` (a read failure —
`failRead k = true` — is logged and the key skipped), then
`if (job && job.expiresAt && job.expiresAt < now - 60*60*24*30)` pushes the
key onto `keysToDelete`.  JS truthiness: `job.expiresAt` must be present
and nonzero. -/
def sweepSelect (now : Int) (failRead : String → Bool) (store : Store) :
    List String :=
  (scanJobs store).filter (fun k =>
    if failRead k then false
    else match kvGet k store with
      | none => false
      | some job => match job.expiresAt with
        | none => false
        | some e => !(e == 0) && decide (e < now - graceSeconds))

/-- The `await Promise.all(keysToDelete.map(key => redis.del(key)))` step and
the JSON response.  All deletions are issued; keys whose `DEL` fails
(`failDel k = true`) stay.  When every deletion succeeds the route responds
`{ success: true, deleted: keysToDelete.length }` (`some count`); when any
deletion rejects, `Promise.all` rejects into the route's catch block and
the response is the 500 error with no count (`none`). -/
def cleanup (now : Int) (failRead failDel : String → Bool) (store : Store) :
    Option Nat × Store :=
  let keysToDelete := sweepSelect now failRead store
  let store' := (keysToDelete.filter (fun k => !failDel k)).foldl
    (fun s k => kvDel k s) store
  if keysToDelete.any failDel then (none, store')
  else (some keysToDelete.length, store')

/-- The caller-facing response of the results route
(`src/unnamed/part_008`). -/
inductive FetchResponse where
  | badRequest (message : String)
  | notFound (message : String)
  | inProgress (jobId status message : String)
  | failed (jobId status error : String)
  | completed (jobId status : String) (results : Option String)
      (visualizations : Meta) (updatedAt : String)
deriving Repr, DecidableEq

/-- The JS expression `a || b` for an optional string `a`: `b` when `a` is
absent or falsy (the empty string), `a` otherwise. -/
def strOrElse (a : Option String) (b : String) : String :=
  match a with
  | none => b
  | some e => if e = "" then b else e

/-- The `GET` handler of the results route (`src/unnamed/part_008`): 400
for a missing id, 404 when `getJob` finds nothing, status-only for
`PROCESSING`/`PENDING`, status plus `job.error || 'Processing failed'` for
`FAILED` (the JS `||` falls back to the default when the stored error is
absent or the empty string), and the stored payload otherwise. -/
def fetchResults (jobId : String) (store : Store) : FetchResponse :=
  if jobId = "" then .badRequest "No job ID provided"
  else match getJob jobId store with
    | none => .notFound "Results not found for this job"
    | some job =>
      if job.status = "PROCESSING" ∨ job.status = "PENDING" then
        .inProgress jobId job.status "Processing in progress"
      else if job.status = "FAILED" then
        .failed jobId job.status (strOrElse job.error "Processing failed")
      else
        .completed jobId job.status
          (job.metadata.bind (fun m =>
            (m.find? (fun p => p.1 == "results")).map (fun p => p.2)))
          (job.visualizations.getD []) job.updatedAt

/-- The JSON branch of `POST /api/process` up to its response (the
fire-and-forget path): `createJob(jobId, { fileUrl, fileName })` then
`updateJob(jobId, JOB_STATUS.PROCESSING)`; the handler then returns
`{ jobId, status: PROCESSING }`. -/
def submitJsonFlow (now : Int) (iso : String)
    (jobId fileUrl fileName : String) (store : Store) : Store :=
  let s1 := (createJob now iso jobId
    (some [("fileUrl", fileUrl), ("fileName", fileName)]) store).2
  (updateJob iso jobId "PROCESSING" none s1).2

/-- The multipart branch of `POST /api/process` up to its response:
`createJob(jobId)`, `updateJob(jobId, PENDING, { metadata })`, then
`updateJob(jobId, PROCESSING)`. -/
def submitMultipartFlow (now : Int) (iso : String)
    (jobId fileUrl fileName : String) (store : Store) : Store :=
  let s1 := (createJob now iso jobId none store).2
  let s2 := (updateJob iso jobId "PENDING"
    (some { metadata := some [("fileUrl", fileUrl), ("fileName", fileName)] })
    s1).2
  (updateJob iso jobId "PROCESSING" none s2).2

/-- Applying a successful Processor outcome
(`processFileInBackground` / the synchronous branch):
`updateJob(jobId, COMPLETED, { resultsUrl: /api/results/jobId })`. -/
def applySuccess (iso : String) (jobId : String) (store : Store) :
    Option JobData × Store :=
  updateJob iso jobId "COMPLETED"
    (some { resultsUrl := some ("/api/results/" ++ jobId) }) store

/-- Applying a failed Processor outcome (the catch blocks of
`POST /api/process` and `processFileInBackground`):
`updateJob(jobId, FAILED, { error })`. -/
def applyFailure (iso : String) (jobId msg : String) (store : Store) :
    Option JobData × Store :=
  updateJob iso jobId "FAILED" (some { error := some msg }) store

/-- The job operations of the system, at the granularity the claims use:
job creation, dispatch (`updateJob PROCESSING`), applying a Processor
outcome, reads, and sweeps. -/
inductive Op where
  | create (jobId : String) (m : Option Meta)
  | dispatch (jobId : String)
  | applyS (jobId : String)
  | applyF (jobId : String) (msg : String)
  | read (jobId : String)
  | sweep
deriving Repr, DecidableEq

/-- Effect of one operation on the store (with the wall clock fixed at
`now` / `iso`).  Reads are pure; a sweep is the cleanup cron with no
storage failures. -/
def step (now : Int) (iso : String) : Op → Store → Store
  | .create j m, s => (createJob now iso j m s).2
  | .dispatch j, s => (updateJob iso j "PROCESSING" none s).2
  | .applyS j, s => (applySuccess iso j s).2
  | .applyF j msg, s => (applyFailure iso j msg s).2
  | .read _, s => s
  | .sweep, s => (cleanup now (fun _ => false) (fun _ => false) s).2

/-- Run a sequence of operations. -/
def runOps (now : Int) (iso : String) (ops : List Op) (s : Store) : Store :=
  ops.foldl (fun st op => step now iso op st) s

/-- The status a reader observes for job `j`. -/
def statusOf (j : String) (s : Store) : Option String :=
  (kvGet j s).map JobData.status

/-- Forward order on statuses: `PENDING → PROCESSING → {COMPLETED, FAILED}`,
with the terminal states final. -/
def statusLe (a b : String) : Bool :=
  a == b || a == "PENDING" || (a == "PROCESSING" && !(b == "PENDING"))

/-- One observation step is forward: a record may appear (in `PENDING`),
its status may advance along `statusLe`, and it may not disappear. -/
def statusForward : Option String → Option String → Bool
  | none, none => true
  | none, some b => b == "PENDING"
  | some _, none => false
  | some a, some b => statusLe a b

/-- Whether an operation writes job `j`'s record. -/
def touchesB (j : String) : Op → Bool
  | .create j' _ => j' == j
  | .dispatch j' => j' == j
  | .applyS j' => j' == j
  | .applyF j' _ => j' == j
  | .read _ => false
  | .sweep => false

def isCreateB (j : String) : Op → Bool
  | .create j' _ => j' == j
  | _ => false

def isDispatchB (j : String) : Op → Bool
  | .dispatch j' => j' == j
  | _ => false

def isApplyB (j : String) : Op → Bool
  | .applyS j' => j' == j
  | .applyF j' _ => j' == j
  | _ => false

/-- The writes the program issues for one job, in order: the process route
runs `create`, then `dispatch`, then at most one `apply` outcome per
submission of a jobId. -/
def flowPrefixB (j : String) : List Op → Bool
  | [] => true
  | [a] => isCreateB j a
  | [a, b] => isCreateB j a && isDispatchB j b
  | [a, b, c] => isCreateB j a && isDispatchB j b && isApplyB j c
  | _ => false

/-- Suffixes of the per-job write flows (the shapes the remaining trace can
have mid-run). -/
def flowSuffixB (j : String) : List Op → Bool
  | [] => true
  | [a] => isCreateB j a || isDispatchB j a || isApplyB j a
  | [a, b] => (isCreateB j a && isDispatchB j b)
      || (isDispatchB j a && isApplyB j b)
  | [a, b, c] => isCreateB j a && isDispatchB j b && isApplyB j c
  | _ => false

/-- The record for `j` carries the `expiresAt` stamped at creation. -/
def expOk (now : Int) (r : JobData) : Prop :=
  r.expiresAt = some (now + weekSeconds)

/-- State invariant relating `j`'s record to the writes still to come. -/
def invPhase (now : Int) (j : String) (s : Store) : List Op → Prop
  | [] => kvGet j s = none ∨ ∃ r, kvGet j s = some r ∧ expOk now r
  | op :: _ =>
    if isCreateB j op then kvGet j s = none
    else if isDispatchB j op then
      ∃ r, kvGet j s = some r ∧ r.status = "PENDING" ∧ expOk now r
    else ∃ r, kvGet j s = some r ∧ r.status = "PROCESSING" ∧ expOk now r

/-- A read of the results route (`getJob` and the response) does not write
the store. -/
def getJobOp (j : String) (s : Store) : Option JobData × Store :=
  (getJob j s, s)

/-- Runs `n` successive polls of the result endpoint. -/
def readMany (j : String) : Nat → Store → Store
  | 0, s => s
  | n + 1, s => readMany j n (getJobOp j s).2

/-- A sample stored record (used for concrete instances). -/
def mkRec (id st : String) (e : Option Int) : JobData :=
  { jobId := id
    status := st
    createdAt := "t0"
    updatedAt := "t0"
    expiresAt := e
    error := none
    resultsUrl := none
    visualizations := none
    metadata := none }

/-- A sample failed record carrying an error summary. -/
def mkRecErr (id st msg : String) (e : Option Int) : JobData :=
  { mkRec id st e with error := some msg }

/-- A deletion-failure pattern: `DEL` rejects for the key `a`. -/
def failA : String → Bool := fun k => k == "a"

theorem kvGet_kvDel_self (k : String) (s : Store) :
    kvGet k (kvDel k s) = none := by
  induction s with
  | nil => rfl
  | cons p t ih =>
    obtain ⟨k', v⟩ := p
    by_cases hp : k' = k
    · simpa [kvDel, hp] using ih
    · simpa [kvDel, kvGet, hp] using ih

theorem kvGet_kvDel_ne (k j : String) (s : Store) (h : j ≠ k) :
    kvGet j (kvDel k s) = kvGet j s := by
  induction s with
  | nil => rfl
  | cons p t ih =>
    obtain ⟨k', v⟩ := p
    by_cases hp : k' = k
    · simpa [kvDel, kvGet, hp, Ne.symm h] using ih
    · by_cases hj : k' = j
      · simp [kvDel, kvGet, hp, hj, h]
      · simpa [kvDel, kvGet, hp, hj] using ih

theorem kvGet_kvSet_self (k : String) (v : JobData) (s : Store) :
    kvGet k (kvSet k v s) = some v := by
  simp [kvGet, kvSet]

theorem kvGet_kvSet_ne (k j : String) (v : JobData) (s : Store) (h : j ≠ k) :
    kvGet j (kvSet k v s) = kvGet j s := by
  have : k ≠ j := fun e => h e.symm
  simp [kvGet, kvSet, this, kvGet_kvDel_ne k j s h]

theorem readMany_id (j : String) : ∀ (n : Nat) (s : Store),
    readMany j n s = s := by
  intro n
  induction n with
  | zero => intro s; rfl
  | succ m ih => intro s; exact ih s

theorem statusForward_refl (o : Option String) : statusForward o o = true := by
  cases o with
  | none => rfl
  | some a => simp [statusForward, statusLe]

/-- An operation on another job leaves `j`'s record untouched (sweeps
aside). -/
theorem kvGet_step_ne (now : Int) (iso j : String) (op : Op)
    (h : touchesB j op = false) (hs : op ≠ Op.sweep) (s : Store) :
    kvGet j (step now iso op s) = kvGet j s := by
  cases op with
  | create k m =>
    have hk : j ≠ k := by
      intro e; simp [touchesB, e] at h
    simpa [step, createJob] using kvGet_kvSet_ne k j _ s hk
  | dispatch k =>
    have hk : j ≠ k := by
      intro e; simp [touchesB, e] at h
    simp only [step, updateJob, updateJobRead, getJob]
    cases hg : kvGet k s with
    | none => rfl
    | some job => simpa [updateJobWriteBack] using kvGet_kvSet_ne k j _ s hk
  | applyS k =>
    have hk : j ≠ k := by
      intro e; simp [touchesB, e] at h
    simp only [step, applySuccess, updateJob, updateJobRead, getJob]
    cases hg : kvGet k s with
    | none => rfl
    | some job => simpa [updateJobWriteBack] using kvGet_kvSet_ne k j _ s hk
  | applyF k msg =>
    have hk : j ≠ k := by
      intro e; simp [touchesB, e] at h
    simp only [step, applyFailure, updateJob, updateJobRead, getJob]
    cases hg : kvGet k s with
    | none => rfl
    | some job => simpa [updateJobWriteBack] using kvGet_kvSet_ne k j _ s hk
  | read _ => rfl
  | sweep => exact absurd rfl hs

theorem kvGet_foldl_kvDel_of_none (j : String) (l : List String) :
    ∀ s : Store, kvGet j s = none →
      kvGet j (l.foldl (fun st k => kvDel k st) s) = none := by
  induction l with
  | nil => intro s h; simpa using h
  | cons k t ih =>
    intro s h
    simp only [List.foldl_cons]
    apply ih
    by_cases hk : j = k
    · subst hk; exact kvGet_kvDel_self j s
    · rw [kvGet_kvDel_ne k j s hk]; exact h

theorem kvGet_foldl_kvDel_not_mem (j : String) (l : List String) :
    ∀ s : Store, j ∉ l →
      kvGet j (l.foldl (fun st k => kvDel k st) s) = kvGet j s := by
  induction l with
  | nil => intro s _; rfl
  | cons k t ih =>
    intro s h
    simp only [List.mem_cons, not_or] at h
    simp only [List.foldl_cons]
    rw [ih (kvDel k s) h.2, kvGet_kvDel_ne k j s h.1]

theorem kvGet_foldl_kvDel_mem (j : String) (l : List String) :
    ∀ s : Store, j ∈ l →
      kvGet j (l.foldl (fun st k => kvDel k st) s) = none := by
  induction l with
  | nil => intro s h; exact absurd h (List.not_mem_nil j)
  | cons k t ih =>
    intro s h
    simp only [List.foldl_cons]
    rcases List.mem_cons.mp h with h1 | h2
    · subst h1
      exact kvGet_foldl_kvDel_of_none j t (kvDel j s) (kvGet_kvDel_self j s)
    · exact ih (kvDel k s) h2

/-- The store the cleanup route leaves behind, in both response branches. -/
theorem cleanup_snd (now : Int) (failRead failDel : String → Bool)
    (s : Store) :
    (cleanup now failRead failDel s).2 =
      ((sweepSelect now failRead s).filter (fun k => !failDel k)).foldl
        (fun st k => kvDel k st) s := by
  simp only [cleanup]
  split <;> rfl

/-- A record `getJob` finds is among the scanned keys. -/
theorem mem_scanJobs_of_kvGet (j : String) (s : Store) (r : JobData)
    (h : kvGet j s = some r) : j ∈ scanJobs s := by
  induction s with
  | nil => simp [kvGet] at h
  | cons p t ih =>
    obtain ⟨k', v⟩ := p
    by_cases hk : k' = j
    · simp [scanJobs, hk]
    · rw [kvGet] at h
      simp only [hk, if_false] at h
      simp [scanJobs] at ih ⊢
      exact Or.inr (ih h)

/-- A record the per-key condition does not select survives the sweep. -/
theorem cleanup_keeps (now : Int) (failRead failDel : String → Bool)
    (s : Store) (j : String) (r : JobData) (h : kvGet j s = some r)
    (hcond : (match r.expiresAt with
      | none => false
      | some e => !(e == 0) && decide (e < now - graceSeconds)) = false) :
    kvGet j (cleanup now failRead failDel s).2 = some r := by
  rw [cleanup_snd]
  rw [kvGet_foldl_kvDel_not_mem]
  · exact h
  · intro hmem
    have hsel : j ∈ sweepSelect now failRead s :=
      (List.mem_filter.mp hmem).1
    have hpred := (List.mem_filter.mp hsel).2
    rw [h] at hpred
    by_cases hfr : failRead j = true
    · simp [hfr] at hpred
    · simp only [Bool.not_eq_true] at hfr
      simp [hfr, hcond] at hpred

/-- A record the per-key condition selects, with no storage failures, is
gone after the sweep. -/
theorem cleanup_deletes (now : Int) (s : Store) (j : String) (r : JobData)
    (h : kvGet j s = some r)
    (hcond : (match r.expiresAt with
      | none => false
      | some e => !(e == 0) && decide (e < now - graceSeconds)) = true) :
    kvGet j (cleanup now (fun _ => false) (fun _ => false) s).2 = none := by
  rw [cleanup_snd]
  apply kvGet_foldl_kvDel_mem
  have hscan := mem_scanJobs_of_kvGet j s r h
  have hsel : j ∈ sweepSelect now (fun _ => false) s := by
    apply List.mem_filter.mpr
    refine ⟨hscan, ?_⟩
    rw [h] at *
    simpa [h] using hcond
  simpa using hsel

/-- A record stamped at creation is never selected by the sweep condition:
`now + 7 days < now - 30 days` is false. -/
theorem expOk_not_selected (now : Int) (r : JobData) (h : expOk now r) :
    (match r.expiresAt with
      | none => false
      | some e => !(e == 0) && decide (e < now - graceSeconds)) = false := by
  have hlt : ¬(now + weekSeconds < now - graceSeconds) := by
    simp only [weekSeconds, graceSeconds]; omega
  simp [expOk] at h
  simp [h, hlt]

/-- Weak consequence of the phase invariant: `j` is absent or carries the
creation-stamped `expiresAt`. -/
theorem inv_weak (now : Int) (j : String) (s : Store) (fl : List Op)
    (h : invPhase now j s fl) :
    kvGet j s = none ∨ ∃ r, kvGet j s = some r ∧ expOk now r := by
  cases fl with
  | nil => exact h
  | cons op t =>
    simp only [invPhase] at h
    split at h
    · exact Or.inl h
    · split at h
      · obtain ⟨r, h1, _, h3⟩ := h
        exact Or.inr ⟨r, h1, h3⟩
      · obtain ⟨r, h1, _, h3⟩ := h
        exact Or.inr ⟨r, h1, h3⟩

/-- A sweep leaves `j`'s record alone when `j` is absent or unexpired. -/
theorem kvGet_sweep_inv (now : Int) (iso j : String) (s : Store)
    (h : kvGet j s = none ∨ ∃ r, kvGet j s = some r ∧ expOk now r) :
    kvGet j (step now iso Op.sweep s) = kvGet j s := by
  rcases h with h | ⟨r, hr, he⟩
  · rw [h]
    simp only [step]
    rw [cleanup_snd]
    exact kvGet_foldl_kvDel_of_none j _ s h
  · rw [hr]
    simp only [step]
    exact cleanup_keeps now _ _ s j r hr (expOk_not_selected now r he)

/-- The phase invariant only inspects `j`'s record. -/
theorem inv_congr (now : Int) (j : String) (s s' : Store) (fl : List Op)
    (hk : kvGet j s' = kvGet j s) (h : invPhase now j s fl) :
    invPhase now j s' fl := by
  cases fl with
  | nil => simpa only [invPhase, hk] using h
  | cons op t => simpa only [invPhase, hk] using h

theorem isCreateB_of_isDispatchB (j : String) (b : Op)
    (h : isDispatchB j b = true) : isCreateB j b = false := by
  cases b <;> simp_all [isCreateB, isDispatchB]

theorem isCreateB_of_isApplyB (j : String) (b : Op)
    (h : isApplyB j b = true) : isCreateB j b = false := by
  cases b <;> simp_all [isCreateB, isApplyB]

theorem isDispatchB_of_isApplyB (j : String) (b : Op)
    (h : isApplyB j b = true) : isDispatchB j b = false := by
  cases b <;> simp_all [isDispatchB, isApplyB]

theorem isDispatchB_of_isCreateB (j : String) (b : Op)
    (h : isCreateB j b = true) : isDispatchB j b = false := by
  cases b <;> simp_all [isCreateB, isDispatchB]

theorem flowSuffixB_tail (j : String) (op : Op) (fl : List Op)
    (h : flowSuffixB j (op :: fl) = true) : flowSuffixB j fl = true := by
  rcases fl with _ | ⟨b, _ | ⟨c, _ | ⟨d, t⟩⟩⟩
  · rfl
  · simp only [flowSuffixB, Bool.or_eq_true, Bool.and_eq_true] at h ⊢
    rcases h with h1 | h2
    · simp [h1.2]
    · simp [h2.2]
  · simp only [flowSuffixB, Bool.or_eq_true, Bool.and_eq_true] at h ⊢
    exact Or.inr ⟨h.1.2, h.2⟩
  · simp [flowSuffixB] at h

theorem flowSuffix_create_next (j : String) (op : Op) (fl : List Op)
    (h : flowSuffixB j (op :: fl) = true) (hc : isCreateB j op = true) :
    fl = [] ∨ ∃ b t, fl = b :: t ∧ isDispatchB j b = true := by
  rcases fl with _ | ⟨b, _ | ⟨c, _ | ⟨d, t⟩⟩⟩
  · exact Or.inl rfl
  · simp only [flowSuffixB, Bool.or_eq_true, Bool.and_eq_true] at h
    rcases h with h1 | h2
    · exact Or.inr ⟨b, [], rfl, h1.2⟩
    · rw [isDispatchB_of_isCreateB j op hc] at h2
      exact absurd h2.1 (by simp)
  · simp only [flowSuffixB, Bool.and_eq_true] at h
    exact Or.inr ⟨b, [c], rfl, h.1.2⟩
  · simp [flowSuffixB] at h

theorem flowSuffix_dispatch_next (j : String) (op : Op) (fl : List Op)
    (h : flowSuffixB j (op :: fl) = true) (hd : isDispatchB j op = true) :
    fl = [] ∨ ∃ b t, fl = b :: t ∧ isApplyB j b = true := by
  have hnc : isCreateB j op = false := isCreateB_of_isDispatchB j op hd
  rcases fl with _ | ⟨b, _ | ⟨c, _ | ⟨d, t⟩⟩⟩
  · exact Or.inl rfl
  · simp only [flowSuffixB, Bool.or_eq_true, Bool.and_eq_true] at h
    rcases h with h1 | h2
    · rw [h1.1] at hnc
      exact absurd hnc (by simp)
    · exact Or.inr ⟨b, [], rfl, h2.2⟩
  · simp only [flowSuffixB, Bool.and_eq_true] at h
    rw [h.1.1] at hnc
    exact absurd hnc (by simp)
  · simp [flowSuffixB] at h

theorem flowSuffix_apply_next (j : String) (op : Op) (fl : List Op)
    (h : flowSuffixB j (op :: fl) = true) (ha : isApplyB j op = true) :
    fl = [] := by
  have hnc : isCreateB j op = false := isCreateB_of_isApplyB j op ha
  have hnd : isDispatchB j op = false := isDispatchB_of_isApplyB j op ha
  rcases fl with _ | ⟨b, _ | ⟨c, _ | ⟨d, t⟩⟩⟩
  · rfl
  · simp only [flowSuffixB, Bool.or_eq_true, Bool.and_eq_true] at h
    rcases h with h1 | h2
    · rw [h1.1] at hnc
      exact absurd hnc (by simp)
    · rw [h2.1] at hnd
      exact absurd hnd (by simp)
  · simp only [flowSuffixB, Bool.and_eq_true] at h
    rw [h.1.1] at hnc
    exact absurd hnc (by simp)
  · simp [flowSuffixB] at h

theorem runOps_cons (now : Int) (iso : String) (op : Op) (ops : List Op)
    (s : Store) :
    runOps now iso (op :: ops) s = runOps now iso ops (step now iso op s) :=
  rfl

/-- Merging with no patch only rewrites `status` and `updatedAt`. -/
theorem mergeJob_none (iso : String) (r : JobData) (st : String) :
    mergeJob iso r st none = { r with status := st, updatedAt := iso } :=
  rfl

/-- The success-outcome patch only adds `resultsUrl`. -/
theorem mergeJob_applyS (iso : String) (r : JobData) (st u : String) :
    mergeJob iso r st (some { resultsUrl := some u }) =
      { r with status := st, updatedAt := iso, resultsUrl := some u } :=
  rfl

/-- The failure-outcome patch only adds `error`. -/
theorem mergeJob_applyF (iso : String) (r : JobData) (st msg : String) :
    mergeJob iso r st (some { error := some msg }) =
      { r with status := st, updatedAt := iso, error := some msg } :=
  rfl

/-- The metadata patch of the multipart branch only rewrites `metadata`. -/
theorem mergeJob_metadata (iso : String) (r : JobData) (st : String)
    (m : Meta) :
    mergeJob iso r st (some { metadata := some m }) =
      { r with status := st, updatedAt := iso, metadata := some m } :=
  rfl

/-- Status monotonicity along any interleaved trace, provided the writes
for job `j` follow the program's per-submission order
`create → dispatch → apply` at most once. -/
theorem mono_aux (now : Int) (iso j : String) :
    ∀ (ops : List Op) (s : Store),
      flowSuffixB j (ops.filter (touchesB j)) = true →
      invPhase now j s (ops.filter (touchesB j)) →
      ∀ i : Nat,
        statusForward (statusOf j (runOps now iso (ops.take i) s))
          (statusOf j (runOps now iso (ops.take (i + 1)) s)) = true := by
  intro ops
  induction ops with
  | nil =>
    intro s _ _ i
    simp only [List.take_nil]
    exact statusForward_refl _
  | cons op rest ih =>
    intro s hsuf hinv i
    by_cases ht : touchesB j op = true
    · have hfil : (op :: rest).filter (touchesB j)
          = op :: rest.filter (touchesB j) := List.filter_cons_of_pos ht
      rw [hfil] at hsuf hinv
      cases op with
      | read k => simp [touchesB] at ht
      | sweep => simp [touchesB] at ht
      | create k m =>
        have hk : k = j := by simpa [touchesB] using ht
        subst k
        have habs : kvGet j s = none := by
          simpa [invPhase, isCreateB] using hinv
        have hstep : kvGet j (step now iso (Op.create j m) s)
            = some ((createJob now iso j m s).1) := by
          simp only [step, createJob]
          exact kvGet_kvSet_self j _ s
        cases i with
        | zero =>
          have h1 : statusOf j
              (runOps now iso (List.take 0 (Op.create j m :: rest)) s)
              = none := by
            simp [runOps, statusOf, habs]
          have h2 : statusOf j
              (runOps now iso (List.take 1 (Op.create j m :: rest)) s)
              = some "PENDING" := by
            simp [runOps, statusOf, hstep, createJob]
          rw [h1, h2]
          decide
        | succ n =>
          have hsuf' := flowSuffixB_tail j _ _ hsuf
          have hinv' : invPhase now j (step now iso (Op.create j m) s)
              (rest.filter (touchesB j)) := by
            rcases flowSuffix_create_next j _ _ hsuf (by simp [isCreateB])
              with hnil | ⟨b, t, heq, hb⟩
            · rw [hnil]
              exact Or.inr ⟨_, hstep, rfl⟩
            · rw [heq]
              simp only [invPhase, isCreateB_of_isDispatchB j b hb,
                Bool.false_eq_true, if_false, hb, if_true]
              exact ⟨_, hstep, rfl, rfl⟩
          simp only [List.take_succ_cons]
          rw [runOps_cons, runOps_cons]
          exact ih (step now iso (Op.create j m) s) hsuf' hinv' n
      | dispatch k =>
        have hk : k = j := by simpa [touchesB] using ht
        subst k
        have hr : ∃ r, kvGet j s = some r ∧ r.status = "PENDING"
            ∧ expOk now r := by
          simpa [invPhase, isCreateB, isDispatchB] using hinv
        obtain ⟨r, hr1, hr2, hr3⟩ := hr
        have hstep : step now iso (Op.dispatch j) s
            = kvSet j { r with status := "PROCESSING", updatedAt := iso } s := by
          simp [step, updateJob, updateJobRead, getJob, hr1,
            updateJobWriteBack, mergeJob_none]
        have hget : kvGet j (step now iso (Op.dispatch j) s)
            = some { r with status := "PROCESSING", updatedAt := iso } := by
          rw [hstep]
          exact kvGet_kvSet_self j _ s
        cases i with
        | zero =>
          have h1 : statusOf j
              (runOps now iso (List.take 0 (Op.dispatch j :: rest)) s)
              = some "PENDING" := by
            simp [runOps, statusOf, hr1, hr2]
          have h2 : statusOf j
              (runOps now iso (List.take 1 (Op.dispatch j :: rest)) s)
              = some "PROCESSING" := by
            simp [runOps, statusOf, hget]
          rw [h1, h2]
          decide
        | succ n =>
          have hsuf' := flowSuffixB_tail j _ _ hsuf
          have hinv' : invPhase now j (step now iso (Op.dispatch j) s)
              (rest.filter (touchesB j)) := by
            rcases flowSuffix_dispatch_next j _ _ hsuf (by simp [isDispatchB])
              with hnil | ⟨b, t, heq, hb⟩
            · rw [hnil]
              exact Or.inr ⟨_, hget, hr3⟩
            · rw [heq]
              simp only [invPhase, isCreateB_of_isApplyB j b hb,
                isDispatchB_of_isApplyB j b hb, Bool.false_eq_true, if_false]
              exact ⟨_, hget, rfl, hr3⟩
          simp only [List.take_succ_cons]
          rw [runOps_cons, runOps_cons]
          exact ih (step now iso (Op.dispatch j) s) hsuf' hinv' n
      | applyS k =>
        have hk : k = j := by simpa [touchesB] using ht
        subst k
        have hr : ∃ r, kvGet j s = some r ∧ r.status = "PROCESSING"
            ∧ expOk now r := by
          simpa [invPhase, isCreateB, isDispatchB] using hinv
        obtain ⟨r, hr1, hr2, hr3⟩ := hr
        have hstep : step now iso (Op.applyS j) s
            = kvSet j { r with status := "COMPLETED", updatedAt := iso, resultsUrl := some ("/api/results/" ++ j) } s := by
          simp [step, applySuccess, updateJob, updateJobRead, getJob, hr1,
            updateJobWriteBack, mergeJob_applyS]
        have hget : kvGet j (step now iso (Op.applyS j) s)
            = some { r with status := "COMPLETED", updatedAt := iso, resultsUrl := some ("/api/results/" ++ j) } := by
          rw [hstep]
          exact kvGet_kvSet_self j _ s
        cases i with
        | zero =>
          have h1 : statusOf j
              (runOps now iso (List.take 0 (Op.applyS j :: rest)) s)
              = some "PROCESSING" := by
            simp [runOps, statusOf, hr1, hr2]
          have h2 : statusOf j
              (runOps now iso (List.take 1 (Op.applyS j :: rest)) s)
              = some "COMPLETED" := by
            simp [runOps, statusOf, hget]
          rw [h1, h2]
          decide
        | succ n =>
          have hsuf' := flowSuffixB_tail j _ _ hsuf
          have hnil := flowSuffix_apply_next j _ _ hsuf (by simp [isApplyB])
          have hinv' : invPhase now j (step now iso (Op.applyS j) s)
              (rest.filter (touchesB j)) := by
            rw [hnil]
            exact Or.inr ⟨_, hget, hr3⟩
          simp only [List.take_succ_cons]
          rw [runOps_cons, runOps_cons]
          exact ih (step now iso (Op.applyS j) s) hsuf' hinv' n
      | applyF k msg =>
        have hk : k = j := by simpa [touchesB] using ht
        subst k
        have hr : ∃ r, kvGet j s = some r ∧ r.status = "PROCESSING"
            ∧ expOk now r := by
          simpa [invPhase, isCreateB, isDispatchB] using hinv
        obtain ⟨r, hr1, hr2, hr3⟩ := hr
        have hstep : step now iso (Op.applyF j msg) s
            = kvSet j { r with status := "FAILED", updatedAt := iso, error := some msg } s := by
          simp [step, applyFailure, updateJob, updateJobRead, getJob, hr1,
            updateJobWriteBack, mergeJob_applyF]
        have hget : kvGet j (step now iso (Op.applyF j msg) s)
            = some { r with status := "FAILED", updatedAt := iso, error := some msg } := by
          rw [hstep]
          exact kvGet_kvSet_self j _ s
        cases i with
        | zero =>
          have h1 : statusOf j
              (runOps now iso (List.take 0 (Op.applyF j msg :: rest)) s)
              = some "PROCESSING" := by
            simp [runOps, statusOf, hr1, hr2]
          have h2 : statusOf j
              (runOps now iso (List.take 1 (Op.applyF j msg :: rest)) s)
              = some "FAILED" := by
            simp [runOps, statusOf, hget]
          rw [h1, h2]
          decide
        | succ n =>
          have hsuf' := flowSuffixB_tail j _ _ hsuf
          have hnil := flowSuffix_apply_next j _ _ hsuf (by simp [isApplyB])
          have hinv' : invPhase now j (step now iso (Op.applyF j msg) s)
              (rest.filter (touchesB j)) := by
            rw [hnil]
            exact Or.inr ⟨_, hget, hr3⟩
          simp only [List.take_succ_cons]
          rw [runOps_cons, runOps_cons]
          exact ih (step now iso (Op.applyF j msg) s) hsuf' hinv' n
    · have hfb : touchesB j op = false := by simpa using ht
      have hfil : (op :: rest).filter (touchesB j)
          = rest.filter (touchesB j) := List.filter_cons_of_neg (by simp [hfb])
      rw [hfil] at hsuf hinv
      have hframe : kvGet j (step now iso op s) = kvGet j s := by
        by_cases hsw : op = Op.sweep
        · subst hsw
          exact kvGet_sweep_inv now iso j s (inv_weak now j s _ hinv)
        · exact kvGet_step_ne now iso j op hfb hsw s
      cases i with
      | zero =>
        have h2 : statusOf j (runOps now iso (List.take 1 (op :: rest)) s)
            = statusOf j (runOps now iso (List.take 0 (op :: rest)) s) := by
          simp [runOps, statusOf, hframe]
        rw [h2]
        exact statusForward_refl _
      | succ n =>
        simp only [List.take_succ_cons]
        rw [runOps_cons, runOps_cons]
        exact ih (step now iso op s) hsuf
          (inv_congr now j s _ _ hframe hinv) n

theorem flowPrefixB_suffix (j : String) (l : List Op)
    (h : flowPrefixB j l = true) : flowSuffixB j l = true := by
  rcases l with _ | ⟨a, _ | ⟨b, _ | ⟨c, _ | ⟨d, t⟩⟩⟩⟩
  · rfl
  · simp only [flowPrefixB] at h
    simp [flowSuffixB, h]
  · simp only [flowPrefixB, Bool.and_eq_true] at h
    simp [flowSuffixB, h.1, h.2]
  · simp only [flowPrefixB] at h
    simpa [flowSuffixB] using h
  · simp [flowPrefixB] at h

theorem flowPrefixB_head_create (j : String) (a : Op) (t : List Op)
    (h : flowPrefixB j (a :: t) = true) : isCreateB j a = true := by
  rcases t with _ | ⟨b, _ | ⟨c, _ | ⟨d, u⟩⟩⟩
  · simpa [flowPrefixB] using h
  · simp only [flowPrefixB, Bool.and_eq_true] at h
    exact h.1
  · simp only [flowPrefixB, Bool.and_eq_true] at h
    exact h.1.1
  · simp [flowPrefixB] at h

/-- A store in which `j` is absent satisfies the phase invariant at the
start of a well-formed trace. -/
theorem invPhase_init (now : Int) (j : String) (s : Store) (l : List Op)
    (h0 : kvGet j s = none) (h : flowPrefixB j l = true) :
    invPhase now j s l := by
  cases l with
  | nil => exact Or.inl h0
  | cons a t =>
    simp only [invPhase, flowPrefixB_head_create j a t h, if_true]
    exact h0

/-- Running `updateJob` on a present record writes the merged record back. -/
theorem updateJob_present (iso j st : String) (d : Option JobPatch)
    (s : Store) (r : JobData) (h : kvGet j s = some r) :
    updateJob iso j st d s
      = (some (mergeJob iso r st d), kvSet j (mergeJob iso r st d) s) := by
  simp [updateJob, updateJobRead, getJob, h, updateJobWriteBack]

/-- Claim C1, counterexample.  The claim says `update` checks the caller's
expected version against the current record and rejects a stale writer
with `Conflict`, read-check-write being one atomic operation.  The code's
`updateJob` has no version argument at all: here writer B's full
`updateJob` (to `FAILED`, `error = boom`) is accepted, then writer A's
write-back — computed from the record A read before B's update — is also
accepted (`isSome`), and the final record carries `status = COMPLETED`
with `error = none`: B's accepted write is silently lost, where the claim
requires A to receive `Conflict` and the record to stay unchanged. -/
theorem C1_counterexample :
    (updateJob "t1" "j" "FAILED" (some { error := some "boom" })
      [("j", mkRec "j" "PENDING" (some 604800))]).1.isSome = true
    ∧ ((updateJobWriteBack "t2" "j" "COMPLETED" (some { resultsUrl := some "r1" })
        (mkRec "j" "PENDING" (some 604800))
        (updateJob "t1" "j" "FAILED" (some { error := some "boom" })
          [("j", mkRec "j" "PENDING" (some 604800))]).2).1).isSome = true
    ∧ (getJob "j" ((updateJobWriteBack "t2" "j" "COMPLETED"
        (some { resultsUrl := some "r1" })
        (mkRec "j" "PENDING" (some 604800))
        (updateJob "t1" "j" "FAILED" (some { error := some "boom" })
          [("j", mkRec "j" "PENDING" (some 604800))]).2).2)).map JobData.status
        = some "COMPLETED"
    ∧ (getJob "j" ((updateJobWriteBack "t2" "j" "COMPLETED"
        (some { resultsUrl := some "r1" })
        (mkRec "j" "PENDING" (some 604800))
        (updateJob "t1" "j" "FAILED" (some { error := some "boom" })
          [("j", mkRec "j" "PENDING" (some 604800))]).2).2)).bind JobData.error
        = none := by
  decide

/-- Claim C1, amended.  `updateJob(jobId, status, data)` takes no expected
version and never returns a `Conflict`: on an absent record it returns
`null` leaving the store unchanged, and on a present record it
unconditionally overwrites it with the merged record
`{ ...job, status, updatedAt, ...data }`; the operation is exactly a
separate read (`updateJobRead`) followed by an unconditional write-back
(`updateJobWriteBack`), not an atomic compare-and-set. -/
theorem C1_amended (iso jobId status : String) (data : Option JobPatch)
    (store : Store) :
    (getJob jobId store = none →
      updateJob iso jobId status data store = (none, store))
    ∧ (∀ job, getJob jobId store = some job →
        updateJob iso jobId status data store
          = (some (mergeJob iso job status data),
             kvSet jobId (mergeJob iso job status data) store))
    ∧ (∀ job, updateJobRead jobId store = some job →
        updateJob iso jobId status data store
          = updateJobWriteBack iso jobId status data job store) := by
  refine ⟨?_, ?_, ?_⟩
  · intro h
    rw [getJob] at h
    simp [updateJob, updateJobRead, getJob, h]
  · intro job h
    exact updateJob_present iso jobId status data store job h
  · intro job h
    simp [updateJob, h]

/-- Concrete instance of `C1_amended`: the absent case on the empty store
and the present case on a one-record store. -/
theorem C1_witness :
    updateJob "t1" "x" "PROCESSING" none [] = (none, [])
    ∧ updateJob "t1" "j" "PROCESSING" none [("j", mkRec "j" "PENDING" (some 1))]
      = (some (mergeJob "t1" (mkRec "j" "PENDING" (some 1)) "PROCESSING" none),
         kvSet "j" (mergeJob "t1" (mkRec "j" "PENDING" (some 1)) "PROCESSING" none)
           [("j", mkRec "j" "PENDING" (some 1))]) :=
  ⟨(C1_amended "t1" "x" "PROCESSING" none []).1 (by decide),
   (C1_amended "t1" "j" "PROCESSING" none
     [("j", mkRec "j" "PENDING" (some 1))]).2.1
     (mkRec "j" "PENDING" (some 1)) (by decide)⟩

/-- Claim C2, counterexample.  The sequence
`create j → dispatch j → applyS j → create j` is reachable (the process
route's JSON branch accepts a caller-supplied `jobId` and begins every
submission with an unconditional `createJob`): after the third operation
the job is terminal (`COMPLETED`), and the fourth operation moves it back
to `PENDING` — a terminal state is left and `PENDING` is re-entered, which
the claim rules out for every reachable sequence. -/
theorem C2_counterexample :
    statusOf "j" (runOps 0 "t"
      [Op.create "j" none, Op.dispatch "j", Op.applyS "j"] [])
      = some "COMPLETED"
    ∧ statusOf "j" (runOps 0 "t"
        [Op.create "j" none, Op.dispatch "j", Op.applyS "j",
         Op.create "j" none] [])
      = some "PENDING"
    ∧ statusForward (some "COMPLETED") (some "PENDING") = false := by
  decide

/-- Claim C2, amended.  Status monotonicity holds only for traces in which
each jobId is submitted at most once: if job `j` is initially absent and
the writes touching `j` along the trace form (a prefix of) the
per-submission order `create → dispatch → apply outcome`, then between any
two consecutive trace points `j`'s status only moves forward along
`PENDING → PROCESSING → {COMPLETED, FAILED}` (never re-entering `PENDING`
or leaving a terminal state), for any interleaving with operations on
other jobs, reads, and sweeps.  A repeated `create` for the same jobId
(second submission) breaks this, as `C2_counterexample` shows. -/
theorem C2_amended (now : Int) (iso j : String) (ops : List Op) (s : Store)
    (h0 : kvGet j s = none)
    (hflow : flowPrefixB j (ops.filter (touchesB j)) = true) (i : Nat) :
    statusForward (statusOf j (runOps now iso (ops.take i) s))
      (statusOf j (runOps now iso (ops.take (i + 1)) s)) = true :=
  mono_aux now iso j ops s
    (flowPrefixB_suffix j (ops.filter (touchesB j)) hflow)
    (invPhase_init now j s (ops.filter (touchesB j)) h0 hflow) i

/-- Concrete instance of `C2_amended`: a single full submission of `j`
interleaved with another job's operations and a sweep, checked at the
dispatch step. -/
theorem C2_witness :
    statusForward
      (statusOf "j" (runOps 0 "t"
        (([Op.create "j" none, Op.create "k" none, Op.dispatch "j",
           Op.sweep, Op.applyS "j"]).take 2) []))
      (statusOf "j" (runOps 0 "t"
        (([Op.create "j" none, Op.create "k" none, Op.dispatch "j",
           Op.sweep, Op.applyS "j"]).take 3) [])) = true :=
  C2_amended 0 "t" "j"
    [Op.create "j" none, Op.create "k" none, Op.dispatch "j",
     Op.sweep, Op.applyS "j"] [] (by decide) (by decide) 2

/-- Claim C3, counterexample.  On a record already in the terminal state
`COMPLETED`, a further transition attempt (a duplicate `FAILED` apply) is
not rejected as a `Conflict` and does not leave the record unchanged: the
code's `updateJob` accepts it (`isSome`) and overwrites the record, whose
status becomes `FAILED` — a second terminal write is accepted for the same
job. -/
theorem C3_counterexample :
    ((updateJob "t2" "j" "FAILED" (some { error := some "dup" })
      [("j", mkRec "j" "COMPLETED" (some 604800))]).1).isSome = true
    ∧ (getJob "j" (updateJob "t2" "j" "FAILED" (some { error := some "dup" })
        [("j", mkRec "j" "COMPLETED" (some 604800))]).2).map JobData.status
      = some "FAILED" := by
  decide

/-- Claim C3, amended.  A transition attempted from a terminal state is
not rejected: for any record in `COMPLETED` or `FAILED`, `updateJob`
returns the merged record (never a `Conflict`) and overwrites the stored
record with it, so any number of terminal writes can be accepted for the
same job. -/
theorem C3_amended (iso j st : String) (d : Option JobPatch) (s : Store)
    (r : JobData) (h : getJob j s = some r)
    (hterm : r.status = "COMPLETED" ∨ r.status = "FAILED") :
    (updateJob iso j st d s).1 = some (mergeJob iso r st d)
    ∧ getJob j (updateJob iso j st d s).2 = some (mergeJob iso r st d) := by
  rw [updateJob_present iso j st d s r h]
  exact ⟨rfl, kvGet_kvSet_self j (mergeJob iso r st d) s⟩

/-- Concrete instance of `C3_amended`: a duplicate failure apply on a
`COMPLETED` record is accepted and overwrites it. -/
theorem C3_witness :
    (updateJob "t2" "j" "FAILED" (some { error := some "dup" })
      [("j", mkRec "j" "COMPLETED" (some 604800))]).1
      = some (mergeJob "t2" (mkRec "j" "COMPLETED" (some 604800)) "FAILED"
          (some { error := some "dup" }))
    ∧ getJob "j" (updateJob "t2" "j" "FAILED" (some { error := some "dup" })
        [("j", mkRec "j" "COMPLETED" (some 604800))]).2
      = some (mergeJob "t2" (mkRec "j" "COMPLETED" (some 604800)) "FAILED"
          (some { error := some "dup" })) :=
  C3_amended "t2" "j" "FAILED" (some { error := some "dup" })
    [("j", mkRec "j" "COMPLETED" (some 604800))]
    (mkRec "j" "COMPLETED" (some 604800)) (by decide) (Or.inl rfl)

/-- Claim C4, counterexample.  With a record already stored under `j`,
`createJob("j", …)` does not fail with `AlreadyExists`: it succeeds,
returning a fresh `PENDING` record, and the stored record is replaced by
it — the existing record is overwritten. -/
theorem C4_counterexample :
    (createJob 0 "t1" "j" none
      [("j", mkRec "j" "COMPLETED" (some 604800))]).1.status = "PENDING"
    ∧ getJob "j" (createJob 0 "t1" "j" none
        [("j", mkRec "j" "COMPLETED" (some 604800))]).2
      = some (createJob 0 "t1" "j" none
          [("j", mkRec "j" "COMPLETED" (some 604800))]).1
    ∧ getJob "j" (createJob 0 "t1" "j" none
        [("j", mkRec "j" "COMPLETED" (some 604800))]).2
      ≠ some (mkRec "j" "COMPLETED" (some 604800)) := by
  decide

/-- Claim C4, amended.  `createJob(jobId, metadata)` never fails with
`AlreadyExists`: on every store — whether or not the id is taken — it
returns a record with `status = PENDING` and freshly computed
`expiresAt = now + 7 days`, and unconditionally `SET`s it under the id,
overwriting any existing record. -/
theorem C4_amended (now : Int) (iso j : String) (m : Option Meta)
    (s : Store) :
    (createJob now iso j m s).1
      = { jobId := j, status := "PENDING", createdAt := iso,
          updatedAt := iso, expiresAt := some (now + weekSeconds),
          error := none, resultsUrl := none, visualizations := none,
          metadata := m }
    ∧ (createJob now iso j m s).2 = kvSet j (createJob now iso j m s).1 s
    ∧ getJob j (createJob now iso j m s).2
      = some (createJob now iso j m s).1 :=
  ⟨rfl, rfl, kvGet_kvSet_self j _ s⟩

/-- Claim C5, counterexample.  Immediately after the submit request of the
process route has returned (fire-and-forget branch), `get job` does not
yield `PENDING`: the handler has already run
`updateJob(jobId, PROCESSING)` before responding, so the observed status
is `PROCESSING`. -/
theorem C5_counterexample :
    statusOf "j" (submitJsonFlow 0 "t" "j" "u" "f" []) = some "PROCESSING"
    ∧ statusOf "j" (submitJsonFlow 0 "t" "j" "u" "f" [])
      ≠ some "PENDING" := by
  decide

/-- Claim C5, amended.  For every submission through `POST /api/process`
(either body branch), reading the job immediately after the request has
returned yields `status = PROCESSING`: the handler transitions the job
from `PENDING` to `PROCESSING` before it responds (in the synchronous
local branch it responds even later, only after a terminal status). -/
theorem C5_amended (now : Int) (iso j fu fn : String) (s : Store) :
    statusOf j (submitJsonFlow now iso j fu fn s) = some "PROCESSING"
    ∧ statusOf j (submitMultipartFlow now iso j fu fn s)
      = some "PROCESSING" := by
  constructor
  · have h1 : kvGet j (createJob now iso j
        (some [("fileUrl", fu), ("fileName", fn)]) s).2
        = some (createJob now iso j
            (some [("fileUrl", fu), ("fileName", fn)]) s).1 :=
      kvGet_kvSet_self j _ s
    simp only [submitJsonFlow, updateJob_present _ _ _ _ _ _ h1]
    simp [statusOf, kvGet_kvSet_self, mergeJob_none]
  · have h1 : kvGet j (createJob now iso j none s).2
        = some (createJob now iso j none s).1 :=
      kvGet_kvSet_self j _ s
    simp only [submitMultipartFlow, updateJob_present _ _ _ _ _ _ h1]
    have h2 : kvGet j (kvSet j (mergeJob iso (createJob now iso j none s).1
        "PENDING" (some { metadata := some [("fileUrl", fu), ("fileName", fn)] }))
        (createJob now iso j none s).2)
        = some (mergeJob iso (createJob now iso j none s).1 "PENDING"
            (some { metadata := some [("fileUrl", fu), ("fileName", fn)] })) :=
      kvGet_kvSet_self j _ _
    simp only [updateJob_present _ _ _ _ _ _ h2]
    simp [statusOf, kvGet_kvSet_self, mergeJob_none]

/-- Claim C6 (confirmed).  After `submit → dispatch → apply(success)`, the
apply step is accepted and writes the terminal record in one single `SET`
that carries `status = COMPLETED` and the result reference
`/api/results/jobId` together (and leaves `visualizations` exactly as it
was — never written in this flow); thereafter any number of result reads
return that same record with that same result reference, and reads never
mutate the store. -/
theorem C6_result_stable (now : Int) (iso iso2 j fu fn : String) (s : Store) :
    ∃ rec : JobData,
      (applySuccess iso2 j (submitJsonFlow now iso j fu fn s)).1 = some rec
      ∧ (applySuccess iso2 j (submitJsonFlow now iso j fu fn s)).2
          = kvSet j rec (submitJsonFlow now iso j fu fn s)
      ∧ rec.status = "COMPLETED"
      ∧ rec.resultsUrl = some ("/api/results/" ++ j)
      ∧ rec.visualizations = none
      ∧ ∀ n : Nat,
          readMany j n (applySuccess iso2 j (submitJsonFlow now iso j fu fn s)).2
            = (applySuccess iso2 j (submitJsonFlow now iso j fu fn s)).2
          ∧ getJob j (readMany j n
              (applySuccess iso2 j (submitJsonFlow now iso j fu fn s)).2)
            = some rec := by
  have h1 : kvGet j (createJob now iso j
      (some [("fileUrl", fu), ("fileName", fn)]) s).2
      = some (createJob now iso j
          (some [("fileUrl", fu), ("fileName", fn)]) s).1 :=
    kvGet_kvSet_self j _ s
  have hflow : submitJsonFlow now iso j fu fn s
      = kvSet j (mergeJob iso (createJob now iso j
          (some [("fileUrl", fu), ("fileName", fn)]) s).1 "PROCESSING" none)
        (createJob now iso j
          (some [("fileUrl", fu), ("fileName", fn)]) s).2 := by
    simp only [submitJsonFlow, updateJob_present _ _ _ _ _ _ h1]
  have h2 : kvGet j (submitJsonFlow now iso j fu fn s)
      = some (mergeJob iso (createJob now iso j
          (some [("fileUrl", fu), ("fileName", fn)]) s).1 "PROCESSING" none) := by
    rw [hflow]
    exact kvGet_kvSet_self j _ _
  have happ : applySuccess iso2 j (submitJsonFlow now iso j fu fn s)
      = (some (mergeJob iso2 (mergeJob iso (createJob now iso j
            (some [("fileUrl", fu), ("fileName", fn)]) s).1 "PROCESSING" none)
          "COMPLETED" (some { resultsUrl := some ("/api/results/" ++ j) })),
         kvSet j (mergeJob iso2 (mergeJob iso (createJob now iso j
            (some [("fileUrl", fu), ("fileName", fn)]) s).1 "PROCESSING" none)
          "COMPLETED" (some { resultsUrl := some ("/api/results/" ++ j) }))
          (submitJsonFlow now iso j fu fn s)) := by
    simp only [applySuccess]
    rw [updateJob_present _ _ _ _ _ _ h2]
  refine ⟨mergeJob iso2 (mergeJob iso (createJob now iso j
      (some [("fileUrl", fu), ("fileName", fn)]) s).1 "PROCESSING" none)
    "COMPLETED" (some { resultsUrl := some ("/api/results/" ++ j) }),
    ?_, ?_, rfl, rfl, rfl, ?_⟩
  · rw [happ]
  · rw [happ]
  · intro n
    rw [readMany_id j n]
    refine ⟨rfl, ?_⟩
    rw [happ]
    exact kvGet_kvSet_self j _ _

/-- Claim C7, counterexample.  A record with `expiresAt = 0` at
`now = 2678400` (31 days after the epoch) has its expiry exactly 31 days
in the past — more than the 30-day grace window
(`now - expiresAt = 2678400 > 2592000`) — yet it is still present after
the sweep: the JS truthiness guard `job.expiresAt &&` skips a zero
`expiresAt`, so the record is never selected for deletion, where the claim
requires it to be absent. -/
theorem C7_counterexample :
    ((0 : Int) < 2678400 - graceSeconds)
    ∧ getJob "j" (cleanup 2678400 (fun _ => false) (fun _ => false)
        [("j", mkRec "j" "PENDING" (some 0))]).2
      = some (mkRec "j" "PENDING" (some 0)) := by
  constructor
  · simp only [graceSeconds]
    decide
  · decide

/-- Claim C7, amended.  For every record present before a sweep (run with
no storage failures): if its `expiresAt` is nonzero and more than the
30-day grace window in the past (`expiresAt < now - 2592000`), the record
is absent after the sweep; if its `expiresAt` is in the future
(`now < expiresAt`), the record survives the sweep unchanged.  (A record
with `expiresAt = 0` is skipped by the code's truthiness guard, hence the
nonzero proviso.) -/
theorem C7_amended (now : Int) (s : Store) (j : String) (r : JobData)
    (h : kvGet j s = some r) :
    (∀ e : Int, r.expiresAt = some e → e ≠ 0 → e < now - graceSeconds →
      kvGet j (cleanup now (fun _ => false) (fun _ => false) s).2 = none)
    ∧ (∀ e : Int, r.expiresAt = some e → now < e →
        kvGet j (cleanup now (fun _ => false) (fun _ => false) s).2
          = some r) := by
  constructor
  · intro e he hne hlt
    apply cleanup_deletes now s j r h
    rw [he]
    simp [hne, hlt]
  · intro e he hfut
    apply cleanup_keeps now _ _ s j r h
    rw [he]
    have hnlt : ¬(e < now - graceSeconds) := by
      simp only [graceSeconds]
      omega
    simp [hnlt]

/-- Concrete instance of `C7_amended`: a record expired 29-plus days past
the grace window is deleted; a record expiring in the future survives. -/
theorem C7_witness :
    kvGet "j" (cleanup 2600000 (fun _ => false) (fun _ => false)
      [("j", mkRec "j" "PENDING" (some 1))]).2 = none
    ∧ kvGet "j" (cleanup 50 (fun _ => false) (fun _ => false)
        [("j", mkRec "j" "PENDING" (some 100))]).2
      = some (mkRec "j" "PENDING" (some 100)) :=
  ⟨(C7_amended 2600000 [("j", mkRec "j" "PENDING" (some 1))] "j"
      (mkRec "j" "PENDING" (some 1)) (by decide)).1 1 rfl (by decide)
      (by simp only [graceSeconds]; decide),
   (C7_amended 50 [("j", mkRec "j" "PENDING" (some 100))] "j"
      (mkRec "j" "PENDING" (some 100)) (by decide)).2 100 rfl (by decide)⟩

/-- Claim C8, counterexample.  Two expired records `a`, `b`; deleting `a`
fails.  The failure is not logged-and-skipped: the rejected `DEL` makes
`Promise.all` reject into the route's catch block, so the sweep responds
with the 500 error and returns no count at all (`none`) — even though the
rest of the batch (`b`) was in fact deleted — where the claim requires the
failure to be skipped and the returned count to equal the number of
records successfully deleted. -/
theorem C8_counterexample :
    (cleanup 2600000 (fun _ => false) failA
      [("a", mkRec "a" "PENDING" (some 1)),
       ("b", mkRec "b" "PENDING" (some 1))]).1 = none
    ∧ kvGet "b" (cleanup 2600000 (fun _ => false) failA
        [("a", mkRec "a" "PENDING" (some 1)),
         ("b", mkRec "b" "PENDING" (some 1))]).2 = none := by
  decide

/-- Claim C8, amended.  Per-key independence holds for reads only: a key
whose read fails is skipped and never selected.  When every deletion
succeeds, the sweep returns exactly the number of selected (expired) keys,
all of which are deleted, and touches no other key.  But a key whose
deletion fails aborts the sweep's response: the route returns the error
(no count), rather than skipping the failure. -/
theorem C8_amended (now : Int) (failRead failDel : String → Bool)
    (s : Store) :
    ((sweepSelect now failRead s).any failDel = false →
      (cleanup now failRead failDel s).1
        = some (sweepSelect now failRead s).length
      ∧ ∀ k ∈ sweepSelect now failRead s,
          kvGet k (cleanup now failRead failDel s).2 = none)
    ∧ (∀ k, failRead k = true → k ∉ sweepSelect now failRead s)
    ∧ ((sweepSelect now failRead s).any failDel = true →
        (cleanup now failRead failDel s).1 = none)
    ∧ (∀ k, k ∉ sweepSelect now failRead s →
        kvGet k (cleanup now failRead failDel s).2 = kvGet k s) := by
  refine ⟨?_, ?_, ?_, ?_⟩
  · intro hok
    have hfilter : (sweepSelect now failRead s).filter (fun k => !failDel k)
        = sweepSelect now failRead s := by
      apply List.filter_eq_self.mpr
      intro k hk
      have := (List.any_eq_false).mp hok k hk
      simp [this]
    constructor
    · simp [cleanup, hok]
    · intro k hk
      rw [cleanup_snd, hfilter]
      exact kvGet_foldl_kvDel_mem k _ s hk
  · intro k hk hmem
    have hpred := (List.mem_filter.mp hmem).2
    simp [hk] at hpred
  · intro hbad
    simp [cleanup, hbad]
  · intro k hk
    rw [cleanup_snd]
    apply kvGet_foldl_kvDel_not_mem
    intro hmem
    exact hk ((List.mem_filter.mp hmem).1)

/-- Concrete instance of `C8_amended`: with no failures one expired record
yields count 1 and is removed while another key is untouched; a read
failure skips the key; a deletion failure yields no count. -/
theorem C8_witness :
    ((cleanup 2600000 (fun _ => false) (fun _ => false)
        [("a", mkRec "a" "PENDING" (some 1))]).1 = some 1
      ∧ kvGet "a" (cleanup 2600000 (fun _ => false) (fun _ => false)
          [("a", mkRec "a" "PENDING" (some 1))]).2 = none)
    ∧ "a" ∉ sweepSelect 2600000 (fun k => k == "a")
        [("a", mkRec "a" "PENDING" (some 1))]
    ∧ (cleanup 2600000 (fun _ => false) failA
        [("a", mkRec "a" "PENDING" (some 1))]).1 = none :=
  ⟨⟨((C8_amended 2600000 (fun _ => false) (fun _ => false)
      [("a", mkRec "a" "PENDING" (some 1))]).1 (by decide)).1,
    ((C8_amended 2600000 (fun _ => false) (fun _ => false)
      [("a", mkRec "a" "PENDING" (some 1))]).1 (by decide)).2 "a" (by decide)⟩,
   (C8_amended 2600000 (fun k => k == "a") (fun _ => false)
      [("a", mkRec "a" "PENDING" (some 1))]).2.1 "a" (by decide),
   (C8_amended 2600000 (fun _ => false) failA
      [("a", mkRec "a" "PENDING" (some 1))]).2.2.1 (by decide)⟩

/-- Claim C9, counterexample.  A `FAILED` record whose stored error
summary is the empty string: the route's `job.error || 'Processing
failed'` treats the stored `""` as falsy and returns the default
`'Processing failed'` instead of the stored summary, so the claim's
`FAILED → status plus the stored error summary` does not hold for every
stored record. -/
theorem C9_counterexample :
    (mkRecErr "j" "FAILED" "" (some 1)).error = some ""
    ∧ fetchResults "j" [("j", mkRecErr "j" "FAILED" "" (some 1))]
      = FetchResponse.failed "j" "FAILED" "Processing failed"
    ∧ ("Processing failed" : String) ≠ "" := by
  decide

/-- Claim C9, amended.  The result-fetch route returns, by case on the
stored record: 404/absent for an unknown (nonempty) jobId, never a record;
status only, with no result payload, when the status is `PENDING` or
`PROCESSING`; and status plus the stored error summary when the status is
`FAILED` and the stored summary is nonempty — a stored empty-string error
(like an absent one) is replaced by the default `Processing failed` by the
JS `||` falsy check. -/
theorem C9_fetch_cases (j : String) (s : Store) :
    (j ≠ "" → getJob j s = none →
      fetchResults j s = FetchResponse.notFound "Results not found for this job")
    ∧ (∀ r, j ≠ "" → getJob j s = some r →
        r.status = "PENDING" ∨ r.status = "PROCESSING" →
        fetchResults j s
          = FetchResponse.inProgress j r.status "Processing in progress")
    ∧ (∀ r e, j ≠ "" → getJob j s = some r → r.status = "FAILED" →
        r.error = some e → e ≠ "" →
        fetchResults j s = FetchResponse.failed j "FAILED" e)
    ∧ (∀ r, j ≠ "" → getJob j s = some r → r.status = "FAILED" →
        (r.error = none ∨ r.error = some "") →
        fetchResults j s
          = FetchResponse.failed j "FAILED" "Processing failed") := by
  refine ⟨?_, ?_, ?_, ?_⟩
  · intro hne h
    simp [fetchResults, hne, h]
  · intro r hne h hst
    rcases hst with h1 | h1 <;> simp [fetchResults, hne, h, h1]
  · intro r e hne h hst herr hemp
    simp [fetchResults, strOrElse, hne, h, hst, herr, hemp]
  · intro r hne h hst herr
    rcases herr with h1 | h1 <;>
      simp [fetchResults, strOrElse, hne, h, hst, h1]

/-- Concrete instance of `C9_fetch_cases`: an unknown id, a pending
record, a failed record with a nonempty stored error summary, and a
failed record with no stored error. -/
theorem C9_witness :
    fetchResults "u" [] = FetchResponse.notFound "Results not found for this job"
    ∧ fetchResults "j" [("j", mkRec "j" "PENDING" (some 1))]
      = FetchResponse.inProgress "j" "PENDING" "Processing in progress"
    ∧ fetchResults "j" [("j", mkRecErr "j" "FAILED" "boom" (some 1))]
      = FetchResponse.failed "j" "FAILED" "boom"
    ∧ fetchResults "j" [("j", mkRec "j" "FAILED" (some 1))]
      = FetchResponse.failed "j" "FAILED" "Processing failed" :=
  ⟨(C9_fetch_cases "u" []).1 (by decide) (by decide),
   by
    have h := (C9_fetch_cases "j" [("j", mkRec "j" "PENDING" (some 1))]).2.1
      (mkRec "j" "PENDING" (some 1)) (by decide) (by decide) (Or.inl rfl)
    simpa [mkRec] using h,
   (C9_fetch_cases "j" [("j", mkRecErr "j" "FAILED" "boom" (some 1))]).2.2.1
    (mkRecErr "j" "FAILED" "boom" (some 1)) "boom" (by decide) (by decide)
    rfl rfl (by decide),
   (C9_fetch_cases "j" [("j", mkRec "j" "FAILED" (some 1))]).2.2.2
    (mkRec "j" "FAILED" (some 1)) (by decide) (by decide) rfl (Or.inl rfl)⟩

/-- Claim C10 (confirmed).  `updateJob` carries every stored field not
named in the patch — other than `status` and `updatedAt` — into the
written record unchanged; in particular a status-only update (no patch)
preserves `jobId`, `createdAt`, `expiresAt`, `metadata`, `error`,
`resultsUrl` and `visualizations` exactly, while setting the new `status`
and the fresh `updatedAt`. -/
theorem C10_frame (iso j st : String) (s : Store) (r : JobData)
    (h : getJob j s = some r) :
    (∀ d : JobPatch,
      (d.jobId = none → (mergeJob iso r st (some d)).jobId = r.jobId)
      ∧ (d.createdAt = none →
          (mergeJob iso r st (some d)).createdAt = r.createdAt)
      ∧ (d.expiresAt = none →
          (mergeJob iso r st (some d)).expiresAt = r.expiresAt)
      ∧ (d.metadata = none →
          (mergeJob iso r st (some d)).metadata = r.metadata)
      ∧ (d.error = none → (mergeJob iso r st (some d)).error = r.error)
      ∧ (d.resultsUrl = none →
          (mergeJob iso r st (some d)).resultsUrl = r.resultsUrl)
      ∧ (d.visualizations = none →
          (mergeJob iso r st (some d)).visualizations = r.visualizations)
      ∧ (updateJob iso j st (some d) s).1 = some (mergeJob iso r st (some d)))
    ∧ ((updateJob iso j st none s).1
        = some { r with status := st, updatedAt := iso }
      ∧ getJob j (updateJob iso j st none s).2
        = some { r with status := st, updatedAt := iso }) := by
  constructor
  · intro d
    refine ⟨?_, ?_, ?_, ?_, ?_, ?_, ?_, ?_⟩
    · intro hd
      simp [mergeJob, applyPatch, hd]
    · intro hd
      simp [mergeJob, applyPatch, hd]
    · intro hd
      simp [mergeJob, applyPatch, hd]
    · intro hd
      simp [mergeJob, applyPatch, hd]
    · intro hd
      simp [mergeJob, applyPatch, hd]
    · intro hd
      simp [mergeJob, applyPatch, hd]
    · intro hd
      simp [mergeJob, applyPatch, hd]
    · rw [updateJob_present iso j st (some d) s r h]
  · rw [updateJob_present iso j st none s r h]
    exact ⟨rfl, kvGet_kvSet_self j _ s⟩

/-- Concrete instance of `C10_frame`: a patch naming only `resultsUrl`
leaves `expiresAt` and `metadata` unchanged, and a status-only update
returns the record with only `status` and `updatedAt` rewritten. -/
theorem C10_witness :
    (mergeJob "t1" (mkRec "j" "PENDING" (some 5)) "PROCESSING"
      (some { resultsUrl := some "x" })).expiresAt
      = (mkRec "j" "PENDING" (some 5)).expiresAt
    ∧ (updateJob "t1" "j" "PROCESSING" none
        [("j", mkRec "j" "PENDING" (some 5))]).1
      = some { mkRec "j" "PENDING" (some 5) with
          status := "PROCESSING", updatedAt := "t1" } :=
  ⟨((C10_frame "t1" "j" "PROCESSING" [("j", mkRec "j" "PENDING" (some 5))]
      (mkRec "j" "PENDING" (some 5)) (by decide)).1
      { resultsUrl := some "x" }).2.2.1 rfl,
   ((C10_frame "t1" "j" "PROCESSING" [("j", mkRec "j" "PENDING" (some 5))]
      (mkRec "j" "PENDING" (some 5)) (by decide)).2).1⟩

end JobSys
